import Mathlib

/-!
Verification development for the EbnfParser repository.

The repository ships two generations of the ISO-EBNF machinery:
`EBNF.hpp` (version 9: scanner, token stream, recursive-descent parser and a
first AST algebra) and `bnf_ast.hpp` (version 26: the reworked AST algebra
with canonicalization, rule joining and sorted comparison).  Both are
embedded below over a common AST type.  Machine strings are Lean `String`s
(byte-wise `<` on ASCII coincides with `std::string::operator<`), C++ `int`
is `Int`, and fallible code returns `Option`.
-/

namespace EBNF

/-- character classification, from `EBNF.hpp`.  `is_space` is implemented in
C++ with `strchr(" \t\n\r\f\v", ch)`, which also reports the terminating NUL
byte as a match, so `'\x00'` counts as space. -/
def is_space (c : Char) : Bool :=
  c = ' ' || c = '\t' || c = '\n' || c = '\r' || c = '\x0c' || c = '\x0b' || c = '\x00'

def is_digit (c : Char) : Bool := '0' ≤ c && c ≤ '9'

def is_lower (c : Char) : Bool := 'a' ≤ c && c ≤ 'z'

def is_upper (c : Char) : Bool := 'A' ≤ c && c ≤ 'Z'

def is_alpha (c : Char) : Bool := is_lower c || is_upper c

def is_alnum (c : Char) : Bool := is_alpha c || is_digit c

inductive TokenType where
  | TOK_IDENT
  | TOK_INTEGER
  | TOK_STRING
  | TOK_SYMBOL
  | TOK_COMMENT
  | TOK_SPECIAL
  | TOK_EOF
deriving DecidableEq, Repr

open TokenType

/-- the value `(int)std::strtol(str, NULL, 10)` stores for an all-digit
string, on an LP64 platform: the decimal value saturates at the largest
`long`, and the cast to `int` then truncates to 32-bit two's-complement. -/
def strtol10 (s : String) : Int :=
  let v : Nat := s.data.foldl (fun acc c => acc * 10 + (c.toNat - '0'.toNat)) 0
  let w : Nat := min v (2 ^ 63 - 1) % 2 ^ 32
  if w < 2 ^ 31 then (w : Int) else (w : Int) - 2 ^ 32

/-- `Token` from `EBNF.hpp`; `m_integer` is populated from the text for
integer tokens.  Line numbers feed diagnostics only and are not modelled. -/
structure Token where
  m_str : String
  m_type : TokenType
deriving DecidableEq, Repr

def Token.m_integer (t : Token) : Int := strtol10 t.m_str

/-- `StringScanner::scan_terminal_string`: an opening quote, then (ISO mode)
a probe rejecting the empty string, then characters up to the matching
quote; end of input during the character loop fails.  When the opening
quote is the last input character, the probe's `getch()` returns -1
without advancing, but the `ungetch()` that follows it still rewinds —
onto the opening quote — and the character loop then reads that quote as
the closing one, so the call succeeds with a zero-length string. -/
def scan_terminal_string (cs : List Char) : Option (String × List Char) :=
  match cs with
  | [] => none
  | q :: rest =>
    if q = '"' || q = '\'' then
      match rest with
      | [] => some ("", [])
      | c :: _ =>
        if c = q then none  -- ISO_EBNF: an empty string is not acceptable
        else
          let rec go (acc : List Char) : List Char → Option (String × List Char)
            | [] => none
            | c2 :: r2 => if c2 = q then some (String.mk acc.reverse, r2) else go (c2 :: acc) r2
          go [] rest
    else none

/-- `StringScanner::scan_meta_identifier`: a letter then the maximal
letter-or-digit run. -/
def scan_meta_identifier (cs : List Char) : Option (String × List Char) :=
  match cs with
  | [] => none
  | c :: rest =>
    if is_alpha c then
      let s := rest.takeWhile is_alnum
      some (String.mk (c :: s), rest.dropWhile is_alnum)
    else none

/-- `StringScanner::scan_integer`: the maximal digit run. -/
def scan_integer (cs : List Char) : Option (String × List Char) :=
  match cs with
  | [] => none
  | c :: rest =>
    if is_digit c then
      some (String.mk (c :: rest.takeWhile is_digit), rest.dropWhile is_digit)
    else none

/-- `StringScanner::scan_comment`: after `(*`, characters up to the matching
`*)`; end of input first fails. -/
def scan_comment (cs : List Char) : Option (String × List Char) :=
  match cs with
  | '(' :: '*' :: rest =>
    let rec go (acc : List Char) : List Char → Option (String × List Char)
      | '*' :: ')' :: r2 => some (String.mk acc.reverse, r2)
      | c :: r2 => go (c :: acc) r2
      | [] => none
    go [] rest
  | _ => none

/-- `StringScanner::scan_special`: after `?`, characters up to the closing
`?`; end of input first fails. -/
def scan_special (cs : List Char) : Option (String × List Char) :=
  match cs with
  | '?' :: rest =>
    let rec go (acc : List Char) : List Char → Option (String × List Char)
      | '?' :: r2 => some (String.mk acc.reverse, r2)
      | c :: r2 => go (c :: acc) r2
      | [] => none
    go [] rest
  | _ => none

def ebnf_symbols : List Char := ['=', ';', '|', ',', '-', '*', '[', ']', '{', '}', '(', ')']

/-- `TokenStream::scan_tokens`: the main scanning loop.  Each iteration skips
whitespace and then dispatches on the next character; error paths push a
message and stop.  The fuel argument bounds the number of loop iterations;
one more than the input length covers every terminating run, since every
iteration except the trailing-`(` rewind below consumes at least one
character.  The zero-fuel branch is reached exactly where the C++ loop
never returns, and marks that with an error so no result of a completed
scan is mistaken for it. -/
def scan_tokens_aux : Nat → List Char → List Token → List String → List Token × List String
  | 0, _, acc, errs => (acc, "out of fuel" :: errs)
  | fuel + 1, cs, acc, errs =>
    let cs := cs.dropWhile is_space
    match cs with
    | [] => (acc ++ [⟨"", TOK_EOF⟩], errs)
    | c :: rest =>
      if is_digit c then
        match scan_integer (c :: rest) with
        | some (s, r) => scan_tokens_aux fuel r (acc ++ [⟨s, TOK_INTEGER⟩]) errs
        | none => (acc, errs ++ ["integer is invalid"])
      else if c = '"' || c = '\'' then
        match scan_terminal_string (c :: rest) with
        | some (s, r) => scan_tokens_aux fuel r (acc ++ [⟨s, TOK_STRING⟩]) errs
        | none => (acc, errs ++ ["terminal string is invalid"])
      else if is_alpha c then
        match scan_meta_identifier (c :: rest) with
        | some (s, r) => scan_tokens_aux fuel r (acc ++ [⟨s, TOK_IDENT⟩]) errs
        | none => (acc, errs ++ ["meta identifier is invalid"])
      else if c = '(' && rest.head? = some '*' then
        match scan_comment (c :: rest) with
        | some (s, r) => scan_tokens_aux fuel r (acc ++ [⟨s, TOK_COMMENT⟩]) errs
        | none => (acc, errs ++ ["no end of comment"])
      else if c = '?' then
        match scan_special (c :: rest) with
        | some (s, r) => scan_tokens_aux fuel r (acc ++ [⟨s, TOK_SPECIAL⟩]) errs
        | none => (acc, errs ++ ["no end of special"])
      else if c ∈ ebnf_symbols then
        if c = '(' && rest.isEmpty then
          -- a bare '(' as the last character: the comment probe's getch at
          -- end of input does not advance, but its ungetch still rewinds
          -- onto the '(', so the C++ loop pushes '(' tokens forever; the
          -- recursion on the unchanged input runs the fuel out on this path
          scan_tokens_aux fuel (c :: rest) (acc ++ [⟨String.mk [c], TOK_SYMBOL⟩]) errs
        else
          scan_tokens_aux fuel rest (acc ++ [⟨String.mk [c], TOK_SYMBOL⟩]) errs
      else
        (acc, errs ++ ["invalid character"])

/-- `scan_tokens` on a whole input string: the produced tokens together with
the accumulated scan errors; the C++ function returns `m_errors.empty()`. -/
def scan_tokens (s : String) : List Token × List String :=
  scan_tokens_aux (s.data.length + 1) s.data [] []

def scan_ok (s : String) : Bool := (scan_tokens s).2.isEmpty

end EBNF

namespace EBNF

open TokenType

/-- The AST node variants shared by `EBNF.hpp` (`AstID`) and `bnf_ast.hpp`
(`AstType`); both enumerations list the variants in this order.  The unary
argument is a nullable pointer in C++, hence `Option`. -/
inductive Ast where
  | integer (value : Int)
  | string (text : String)
  | binary (op : String) (left right : Ast)
  | ident (name : String)
  | unary (op : String) (arg : Option Ast)
  | seq (tag : String) (children : List Ast)
  | special (text : String)
  | empty
deriving Repr

/-- position of a node's variant in the `AstID`/`AstType` enumeration. -/
def Ast.atype : Ast → Nat
  | .integer _ => 0
  | .string _ => 1
  | .binary _ _ _ => 2
  | .ident _ => 3
  | .unary _ _ => 4
  | .seq _ _ => 5
  | .special _ => 6
  | .empty => 7

def Ast.children : Ast → List Ast
  | .seq _ l => l
  | _ => []

/-- `TokenStream::delete_comments`: remove every comment token. -/
def delete_comments (toks : List Token) : List Token :=
  toks.filter (fun t => t.m_type ≠ TokenType.TOK_COMMENT)

/-- `TokenStream::join_words`: merge every maximal run of adjacent
identifier tokens into one identifier, joining the texts with a space.  The
C++ loop merges pairs left to right; merging each head into the already
merged rest joins the same maximal runs into the same space-separated
texts. -/
def join_words : List Token → List Token
  | [] => []
  | a :: rest =>
    match join_words rest with
    | b :: r2 =>
      if a.m_type = TokenType.TOK_IDENT ∧ b.m_type = TokenType.TOK_IDENT then
        ⟨a.m_str ++ " " ++ b.m_str, TokenType.TOK_IDENT⟩ :: r2
      else
        a :: b :: r2
    | [] => [a]

/-- Parser cursor state: the token index plus accumulated diagnostics.
`TokenStream::next` advances only while `m_index + 1 < size()`, so the
cursor never moves past the final (EndOfFile) token. -/
structure PState where
  idx : Nat
  errs : List String
deriving Repr

def junk_token : Token := ⟨"", TokenType.TOK_EOF⟩

def tok_at (toks : List Token) (i : Nat) : Token := toks.getD i junk_token

def ptype (toks : List Token) (st : PState) : TokenType := (tok_at toks st.idx).m_type

def pstr (toks : List Token) (st : PState) : String := (tok_at toks st.idx).m_str

def pint (toks : List Token) (st : PState) : Int := (tok_at toks st.idx).m_integer

def pnext (toks : List Token) (st : PState) : PState :=
  if st.idx + 1 < toks.length then { st with idx := st.idx + 1 } else st

def perr (st : PState) (msg : String) : PState := { st with errs := st.errs ++ [msg] }

mutual

/-- `Parser::visit_syntax`: `syntax = syntax_rule, {syntax_rule};`, yielding
`SeqAst("rules")`.  The loop over further rules is `visit_syntax_loop`. -/
def visit_syntax (toks : List Token) : Nat → PState → Option Ast × PState
  | 0, st => (none, perr st "out of fuel")
  | fuel + 1, st =>
    match visit_syntax_rule toks fuel st with
    | (none, st1) => (none, st1)
    | (some rule, st1) => visit_syntax_loop toks fuel st1 [rule]

def visit_syntax_loop (toks : List Token) : Nat → PState → List Ast → Option Ast × PState
  | 0, st, _ => (none, perr st "out of fuel")
  | fuel + 1, st, rules =>
    if ptype toks st = TOK_EOF then
      (some (.seq "rules" rules), st)
    else
      match visit_syntax_rule toks fuel st with
      | (none, st1) => (none, st1)
      | (some rule, st1) => visit_syntax_loop toks fuel st1 (rules ++ [rule])

/-- `Parser::visit_syntax_rule`:
`syntax_rule = meta_identifier, '=', definitions_list, ';';`, yielding a
`BinaryAst("=", IdentAst, defs)`. -/
def visit_syntax_rule (toks : List Token) : Nat → PState → Option Ast × PState
  | 0, st => (none, perr st "out of fuel")
  | fuel + 1, st =>
    if ptype toks st ≠ TOK_IDENT then
      (none, perr st "expected TOK_IDENT")
    else
      let idname := pstr toks st
      let st := pnext toks st
      if ¬(ptype toks st = TOK_SYMBOL ∧ pstr toks st = "=") then
        (none, perr st "expected =")
      else
        let st := pnext toks st
        match visit_definitions_list toks fuel st with
        | (none, st1) => (none, st1)
        | (some defs, st1) =>
          if ¬(ptype toks st1 = TOK_SYMBOL ∧ pstr toks st1 = ";") then
            (none, perr st1 "expected ; or ,")
          else
            (some (.binary "=" (.ident idname) defs), pnext toks st1)

/-- `Parser::visit_definitions_list`:
`definitions_list = single_definition, {'|', single_definition};`, yielding
`SeqAst("defs")`. -/
def visit_definitions_list (toks : List Token) : Nat → PState → Option Ast × PState
  | 0, st => (none, perr st "out of fuel")
  | fuel + 1, st =>
    match visit_single_definition toks fuel st with
    | (none, st1) => (none, st1)
    | (some d, st1) => visit_definitions_loop toks fuel st1 [d]

def visit_definitions_loop (toks : List Token) : Nat → PState → List Ast → Option Ast × PState
  | 0, st, _ => (none, perr st "out of fuel")
  | fuel + 1, st, defs =>
    if ptype toks st = TOK_SYMBOL ∧ pstr toks st = "|" then
      let st := pnext toks st
      match visit_single_definition toks fuel st with
      | (none, st1) => (none, st1)
      | (some d, st1) => visit_definitions_loop toks fuel st1 (defs ++ [d])
    else
      (some (.seq "defs" defs), st)

/-- `Parser::visit_single_definition`:
`single_definition = term, {',', term};`, yielding `SeqAst("terms")`. -/
def visit_single_definition (toks : List Token) : Nat → PState → Option Ast × PState
  | 0, st => (none, perr st "out of fuel")
  | fuel + 1, st =>
    match visit_term toks fuel st with
    | (none, st1) => (none, st1)
    | (some t, st1) => visit_terms_loop toks fuel st1 [t]

def visit_terms_loop (toks : List Token) : Nat → PState → List Ast → Option Ast × PState
  | 0, st, _ => (none, perr st "out of fuel")
  | fuel + 1, st, terms =>
    if ptype toks st = TOK_SYMBOL ∧ pstr toks st = "," then
      let st := pnext toks st
      match visit_term toks fuel st with
      | (none, st1) => (none, st1)
      | (some t, st1) => visit_terms_loop toks fuel st1 (terms ++ [t])
    else
      (some (.seq "terms" terms), st)

/-- `Parser::visit_term`: `term = factor, ['-', exception];`. -/
def visit_term (toks : List Token) : Nat → PState → Option Ast × PState
  | 0, st => (none, perr st "out of fuel")
  | fuel + 1, st =>
    match visit_factor toks fuel st with
    | (none, st1) => (none, st1)
    | (some fact, st1) =>
      if ptype toks st1 = TOK_SYMBOL ∧ pstr toks st1 = "-" then
        let st2 := pnext toks st1
        match visit_factor toks fuel st2 with
        | (none, st3) => (none, st3)
        | (some ex, st3) => (some (.binary "-" fact ex), st3)
      else
        (some fact, st1)

/-- `Parser::visit_factor`: `factor = [integer, '*'], primary;`; an integer
not followed by `*` is a hard error. -/
def visit_factor (toks : List Token) : Nat → PState → Option Ast × PState
  | 0, st => (none, perr st "out of fuel")
  | fuel + 1, st =>
    if ptype toks st = TOK_INTEGER then
      let n := pint toks st
      let st := pnext toks st
      if ptype toks st = TOK_SYMBOL ∧ pstr toks st = "*" then
        let st := pnext toks st
        match visit_primary toks fuel st with
        | (some prim, st1) => (some (.binary "*" (.integer n) prim), st1)
        | (none, st1) => (none, perr st1 "expected *")
      else
        (none, perr st "expected *")
    else
      visit_primary toks fuel st

/-- `Parser::visit_primary`: dispatch on the current token; a
production-terminating symbol matches the empty production. -/
def visit_primary (toks : List Token) : Nat → PState → Option Ast × PState
  | 0, st => (none, perr st "out of fuel")
  | fuel + 1, st =>
    match ptype toks st with
    | .TOK_STRING => (some (.string (pstr toks st)), pnext toks st)
    | .TOK_IDENT => (some (.ident (pstr toks st)), pnext toks st)
    | .TOK_SPECIAL => (some (.special (pstr toks st)), pnext toks st)
    | .TOK_SYMBOL =>
      let s := pstr toks st
      if s = "[" then visit_bracketed toks fuel st "[" "]" "optional"
      else if s = "\x7b" then visit_bracketed toks fuel st "\x7b" "\x7d" "repeated"
      else if s = "(" then visit_bracketed toks fuel st "(" ")" "group"
      else if s = ";" || s = "|" || s = "," || s = ")" || s = "\x7d" || s = "]" then
        (some .empty, st)
      else (none, st)
    | _ => (none, st)

/-- `Parser::visit_optional_sequence` / `visit_repeated_sequence` /
`visit_grouped_sequence`: an opening bracket, a definitions list and the
matching closing bracket, wrapped in a `UnaryAst`. -/
def visit_bracketed (toks : List Token) : Nat → PState → String → String → String →
    Option Ast × PState
  | 0, st, _, _, _ => (none, perr st "out of fuel")
  | fuel + 1, st, opening, closing, tag =>
    if ¬(ptype toks st = TOK_SYMBOL ∧ pstr toks st = opening) then
      (none, perr st "expected opening bracket")
    else
      let st := pnext toks st
      match visit_definitions_list toks fuel st with
      | (none, st1) => (none, st1)
      | (some inner, st1) =>
        if ¬(ptype toks st1 = TOK_SYMBOL ∧ pstr toks st1 = closing) then
          (none, perr st1 "bracket unmatched")
        else
          (some (.unary tag (some inner)), pnext toks st1)

end

/-- fuel that bounds all parser recursion: every recursive call either
consumes a token first or descends into a strictly deeper production, and
the production nesting per token is bounded by a small constant. -/
def parse_fuel (toks : List Token) : Nat := 16 * (toks.length + 1)

/-- the fix-up passes `Parser::parse` applies to the stream before
descending: comment removal then identifier joining. -/
def fixup (toks : List Token) : List Token := join_words (delete_comments toks)

/-- the `visit_syntax()` call of `Parser::parse`, from cursor position 0 on
the fixed-up stream. -/
def syntax_result (toks : List Token) : Option Ast × PState :=
  visit_syntax (fixup toks) (parse_fuel (fixup toks)) ⟨0, []⟩

/-- `Parser::parse`: fails on an empty stream, deletes comments and joins
adjacent identifiers, then requires `visit_syntax` to build an AST with the
cursor left on the EndOfFile token; on failure the stored AST is null. -/
def parse_tokens (toks : List Token) : Option Ast :=
  if toks.length = 0 then none
  else
    match syntax_result toks with
    | (some a, st) => if ptype (fixup toks) st = TOK_EOF then some a else none
    | (none, _) => none

/-- the full `EBNF.hpp` pipeline: scan, then parse when scanning succeeded. -/
def parse9 (s : String) : Option Ast :=
  let (toks, errs) := scan_tokens s
  if errs.isEmpty then parse_tokens toks else none

end EBNF

namespace EBNF

/-- lexicographic byte-wise comparison of character lists, the order
`std::string::operator<` implements. -/
def chars_lt : List Char → List Char → Bool
  | [], [] => false
  | [], _ :: _ => true
  | _ :: _, [] => false
  | c :: cs, d :: ds =>
    if c.toNat < d.toNat then true
    else if d.toNat < c.toNat then false
    else chars_lt cs ds

/-- `std::string` comparison `a < b`. -/
def str_lt (a b : String) : Bool := chars_lt a.data b.data

/-- insertion of an element into a sorted prefix, scanning from the right and
moving the element left while the comparator orders it before its
predecessor; folded over a list this reproduces the insertion sort that
`std::sort` applies to the short child vectors sorted here. -/
def insert_from_right (lt : Ast → Ast → Bool) (x : Ast) (l : List Ast) : List Ast :=
  let rec aux : List Ast → List Ast
    | [] => [x]
    | y :: r => if lt x y then y :: aux r else x :: y :: r
  (aux l.reverse).reverse

def sort_by (lt : Ast → Ast → Bool) (l : List Ast) : List Ast :=
  l.foldl (fun acc x => insert_from_right lt x acc) []

end EBNF

/-! The version-9 algebra of `EBNF.hpp`: `ast_equal`, `ast_less_than` and the
`sorted_clone` virtuals.  In version 9 only `SeqAst::sorted_clone` sorts (it
sorts its children by `ast_less_than` after applying their own virtual
`sorted_clone`, which for every non-sequence node is a plain clone), and the
three functions call each other on nodes of strictly smaller depth, bounded
here by a fuel argument. -/

namespace EBNF9

open EBNF

mutual

def sorted_clone9 : Nat → Ast → Ast
  | 0, a => a
  | fuel + 1, a =>
    match a with
    | .seq tag l => .seq tag (sort_by (ast_less_than9 fuel) (l.map (sorted_clone9 fuel)))
    | other => other

def ast_equal9 : Nat → Ast → Ast → Bool
  | 0, _, _ => false
  | fuel + 1, a1, a2 =>
    match a1, a2 with
    | .integer i1, .integer i2 => i1 == i2
    | .string s1, .string s2 => s1 == s2
    | .binary o1 l1 r1, .binary o2 l2 r2 =>
      o1 == o2 && (ast_equal9 fuel l1 l2 && ast_equal9 fuel r1 r2)
    | .ident n1, .ident n2 => n1 == n2
    | .unary o1 g1, .unary o2 g2 =>
      o1 == o2 && (g1.isSome == g2.isSome &&
        match g1, g2 with
        | some x, some y => ast_equal9 fuel x y
        | _, _ => true)
    | .seq t1 l1, .seq t2 l2 =>
      t1 == t2 && ((l1.length == l2.length) &&
        (let c1 := sort_by (ast_less_than9 fuel) (l1.map (sorted_clone9 fuel))
         let c2 := sort_by (ast_less_than9 fuel) (l2.map (sorted_clone9 fuel))
         (c1.zip c2).all (fun p => ast_equal9 fuel p.1 p.2)))
    | .special s1, .special s2 => s1 == s2
    | .empty, .empty => true
    | _, _ => false

def ast_less_than9 : Nat → Ast → Ast → Bool
  | 0, _, _ => false
  | fuel + 1, a1, a2 =>
    match a1, a2 with
    | .integer i1, .integer i2 => i1 < i2
    | .string s1, .string s2 => str_lt s1 s2
    | .binary o1 l1 r1, .binary o2 l2 r2 =>
      if str_lt o1 o2 then true
      else if str_lt o2 o1 then false
      else ast_less_than9 fuel l1 l2 || ast_less_than9 fuel r1 r2
    | .ident n1, .ident n2 => str_lt n1 n2
    | .unary o1 g1, .unary o2 g2 =>
      if str_lt o1 o2 then true
      else if str_lt o2 o1 then false
      else if !g1.isSome && g2.isSome then true
      else if g1.isSome && !g2.isSome then false
      else
        match g1, g2 with
        | some x, some y => ast_less_than9 fuel x y
        | _, _ => false
    | .seq t1 l1, .seq t2 l2 =>
      if str_lt t1 t2 then true
      else if str_lt t2 t1 then false
      else
        let c1 := sort_by (ast_less_than9 fuel) (l1.map (sorted_clone9 fuel))
        let c2 := sort_by (ast_less_than9 fuel) (l2.map (sorted_clone9 fuel))
        if (c1.zip c2).all
            (fun p => ast_equal9 fuel p.1 p.2 || ast_less_than9 fuel p.1 p.2) then
          l1.length < l2.length
        else false
    | .special s1, .special s2 => str_lt s1 s2
    | .empty, .empty => false
    | x, y => decide (x.atype < y.atype)

end

/-- enough fuel for the depth of any tree compared in the theorems below. -/
def fuel9 : Nat := 64

end EBNF9

/-! The version-26 algebra of `bnf_ast.hpp`: the `empty()` virtual, the
`already_sorted` comparison pair `ast_equal(…, true)` / `ast_less_than(…, true)`,
`sorted_clone` with its terms/expr/rules branches, the outer `ast_equal`, and
the rule-joining pass. -/

namespace BNF

open EBNF

mutual

/-- the `empty()` virtual of `bnf_ast.hpp`: a string node is empty when its
text is, the empty node is empty, a non-"rules" sequence is empty when all
its children are, every other node is not. -/
def ast_empty : Ast → Bool
  | .string s => s.isEmpty
  | .empty => true
  | .seq tag l => if tag == "rules" then false else ast_empty_all l
  | _ => false

def ast_empty_all : List Ast → Bool
  | [] => true
  | a :: l => ast_empty a && ast_empty_all l

end

mutual

/-- `ast_equal(ast1, ast2, true)` from `bnf_ast.hpp` — the `already_sorted`
path.  In the `ATYPE_UNARY` case the source reads both operands from `ast1`
(`const UnaryAst *u2 = ast1->get_unary_ast();`, line 474), so the node is
compared against itself and `ast2`'s contents are ignored. -/
def ast_equal_sorted : Ast → Ast → Bool
  | .integer i1, .integer i2 => i1 == i2
  | .string s1, .string s2 => s1 == s2
  | .binary o1 l1 r1, .binary o2 l2 r2 =>
    o1 == o2 && (ast_equal_sorted l1 l2 && ast_equal_sorted r1 r2)
  | .ident n1, .ident n2 => n1 == n2
  | .unary o1 g1, .unary _ _ =>
    o1 == o1 && (g1.isSome == g1.isSome &&
      match g1 with
      | some x => ast_equal_sorted x x
      | none => true)
  | .seq t1 l1, .seq t2 l2 =>
    t1 == t2 && ((l1.length == l2.length) && ast_equal_sorted_list l1 l2)
  | .special s1, .special s2 => s1 == s2
  | .empty, .empty => true
  | _, _ => false

def ast_equal_sorted_list : List Ast → List Ast → Bool
  | a :: as, b :: bs => ast_equal_sorted a b && ast_equal_sorted_list as bs
  | _, _ => true

/-- `ast_less_than(ast1, ast2, true)` from `bnf_ast.hpp` — the
`already_sorted` path: variant tag first, then payload, with sequences
compared lexicographically up to the shorter length and ties broken by
length. -/
def ast_less_than_sorted : Ast → Ast → Bool
  | .integer i1, .integer i2 => i1 < i2
  | .string s1, .string s2 => str_lt s1 s2
  | .binary o1 l1 r1, .binary o2 l2 r2 =>
    if str_lt o1 o2 then true
    else if str_lt o2 o1 then false
    else if ast_less_than_sorted l1 l2 then true
    else if !ast_equal_sorted l1 l2 then false
    else ast_less_than_sorted r1 r2
  | .ident n1, .ident n2 => str_lt n1 n2
  | .unary o1 g1, .unary o2 g2 =>
    if str_lt o1 o2 then true
    else if str_lt o2 o1 then false
    else if !g1.isSome && g2.isSome then true
    else if g1.isSome && !g2.isSome then false
    else
      match g1, g2 with
      | some x, some y => ast_less_than_sorted x y
      | _, _ => false
  | .seq t1 l1, .seq t2 l2 =>
    if str_lt t1 t2 then true
    else if str_lt t2 t1 then false
    else ast_less_than_sorted_list l1 l2
  | .special s1, .special s2 => str_lt s1 s2
  | .empty, .empty => false
  | x, y => decide (x.atype < y.atype)

def ast_less_than_sorted_list : List Ast → List Ast → Bool
  | [], [] => false
  | [], _ :: _ => true
  | _ :: _, [] => false
  | a :: as, b :: bs =>
    if ast_equal_sorted a b then ast_less_than_sorted_list as bs
    else ast_less_than_sorted a b

end

/-- `SeqAst::unique`: erase the earlier of every adjacent
`ast_equal(…, true)` pair, keeping the last element of each equal run. -/
def unique_adjacent : List Ast → List Ast
  | a :: b :: r =>
    if ast_equal_sorted a b then unique_adjacent (b :: r)
    else a :: unique_adjacent (b :: r)
  | l => l

mutual

/-- the `sorted_clone` virtuals of `bnf_ast.hpp`: leaves clone themselves
(an empty string literal becomes the empty node), unary and binary nodes
recurse, and `SeqAst::sorted_clone` dispatches on the tag: "terms" drops
empty children and splices single-alternative groups, "expr" splices
degenerate grouped alternatives then sorts and deduplicates, "rules" clones
children in place, and any other tag loses its children. -/
def sorted_clone : Ast → Ast
  | .integer i => .integer i
  | .string s => if s.isEmpty then .empty else .string s
  | .binary o l r => .binary o (sorted_clone l) (sorted_clone r)
  | .ident n => .ident n
  | .unary o g =>
    .unary o (match g with | some x => some (sorted_clone x) | none => none)
  | .special s => .special s
  | .empty => .empty
  | .seq tag l =>
    if tag == "terms" then .seq tag (sc_terms_list l)
    else if tag == "expr" then
      .seq tag (unique_adjacent (sort_by ast_less_than_sorted (sc_expr_list l)))
    else if tag == "rules" then .seq tag (sc_rules_list l)
    else .seq tag []

/-- the "terms" loop of `SeqAst::sorted_clone`: empty children are skipped;
a `group` unary whose expression has exactly one alternative has that
alternative's terms spliced in (or is skipped when the alternative is
empty); every other child contributes its own sorted clone.  The source
dereferences `get_expr()`/`get_terms()` without null checks, so shapes a
parse cannot produce fall through to the plain-clone case here. -/
def sc_terms_list : List Ast → List Ast
  | [] => []
  | .unary "group" (some (.seq "expr" [.seq "terms" ts])) :: l =>
    -- the `empty()` skip cannot fire first here: a `UnaryAst` is never empty
    if ast_empty (.seq "terms" ts) then sc_terms_list l
    else sc_terms_list ts ++ sc_terms_list l
  | a :: l =>
    if ast_empty a then sc_terms_list l
    else sorted_clone a :: sc_terms_list l

/-- the "expr" loop of `SeqAst::sorted_clone`: an alternative that is a
one-element terms sequence holding a `group` unary is replaced by the
children of the group expression's sorted clone; every other alternative
contributes its own sorted clone.  Sorting and deduplication happen after
this loop, in `sorted_clone` itself. -/
def sc_expr_list : List Ast → List Ast
  | [] => []
  | .seq "terms" [.unary "group" (some (.seq "expr" es))] :: l =>
    unique_adjacent (sort_by ast_less_than_sorted (sc_expr_list es)) ++ sc_expr_list l
  | a :: l => sorted_clone a :: sc_expr_list l

def sc_rules_list : List Ast → List Ast
  | [] => []
  | a :: l => sorted_clone a :: sc_rules_list l

end

/-- `ast_equal(ast1, ast2)` from `bnf_ast.hpp` — the outer, unsorted entry
point.  Sequences of equal tag and length are compared by taking the sorted
clone of each side and then comparing position by position with the
`already_sorted` equality; the C++ loop runs to the original length over the
clones (reading out of bounds if canonicalization shrank them — every
comparison proved below is length-preserving at this level), modelled with a
default node.  The `ATYPE_UNARY` typo (`u2` read from `ast1`) is the same as
in the sorted path. -/
def ast_equal : Ast → Ast → Bool
  | .integer i1, .integer i2 => i1 == i2
  | .string s1, .string s2 => s1 == s2
  | .binary o1 l1 r1, .binary o2 l2 r2 =>
    o1 == o2 && (ast_equal l1 l2 && ast_equal r1 r2)
  | .ident n1, .ident n2 => n1 == n2
  | .unary o1 g1, .unary _ _ =>
    o1 == o1 && (g1.isSome == g1.isSome &&
      match g1 with
      | some x => ast_equal x x
      | none => true)
  | .seq t1 l1, .seq t2 l2 =>
    t1 == t2 && ((l1.length == l2.length) &&
      (let c1 := (sorted_clone (.seq t1 l1)).children
       let c2 := (sorted_clone (.seq t2 l2)).children
       (List.range l1.length).all
         (fun i => ast_equal_sorted (c1.getD i .empty) (c2.getD i .empty))))
  | .special s1, .special s2 => s1 == s2
  | .empty, .empty => true
  | _, _ => false

/-- `ast_get_rule_name`: the name of the identifier on the left of a rule
binary; the C++ asserts the shape, modelled by an empty-string default. -/
def ast_get_rule_name : Ast → String
  | .binary _ (.ident n) _ => n
  | _ => ""

/-- the child list of a rule's right-hand expression sequence. -/
def rule_alts : Ast → List Ast
  | .binary _ _ (.seq _ es) => es
  | _ => []

/-- splicing of the matching rules' alternative lists onto a kept rule, in
encounter order, as done by the `m_vec.insert` in
`ast_join_joinable_rules`. -/
def append_alts (r : Ast) (same : List Ast) : Ast :=
  match r with
  | .binary op idn (.seq etag es) => .binary op idn (.seq etag (es ++ same.flatMap rule_alts))
  | _ => r

/-- the double loop of `ast_join_joinable_rules` over the top-level rule
vector: for each rule in order, every later rule with the same left-hand
name is merged into it and erased; the flag records whether any merge
occurred.  The fuel bounds the outer loop; any fuel of at least the list
length computes the full pass, since each step keeps one rule and recurses
on a strictly shorter remainder. -/
def join_rules_aux : Nat → List Ast → List Ast × Bool
  | 0, _ => ([], false)
  | _ + 1, [] => ([], false)
  | fuel + 1, r :: rest =>
    let name := ast_get_rule_name r
    let same := rest.filter (fun x => ast_get_rule_name x == name)
    let diff := rest.filter (fun x => ast_get_rule_name x != name)
    let res := join_rules_aux fuel diff
    (append_alts r same :: res.1, res.2 || !same.isEmpty)

def join_rules_list (l : List Ast) : List Ast × Bool := join_rules_aux l.length l

/-- `ast_join_joinable_rules`: operates on the "rules" sequence (asserted in
C++); returns the rewritten tree and whether any merge occurred. -/
def ast_join_joinable_rules : Ast → Ast × Bool
  | .seq "rules" l =>
    let res := join_rules_list l
    (.seq "rules" res.1, res.2)
  | a => (a, false)

end BNF

namespace BNF

open EBNF

/-- `IdentAst::IdentAst` in `bnf_ast.hpp`: every `'-'` and `' '` in a name is
converted to `'_'`. -/
def ident_normalize (n : String) : String :=
  String.mk (n.data.map (fun c => if c = '-' || c = ' ' then '_' else c))

mutual

/-- Modelled from the spec: the parser generation that builds `bnf_ast.hpp`
trees (the current `EBNF.hpp`, which the test drivers compile against) is
not among the source files; only the version-9 parser is.  Per §4.3 of the
spec its productions are those of the version-9 parser but it produces
`Binary("rule", …)` where version 9 produces `Binary("=", …)` and
`Seq("expr", …)` where version 9 produces `Seq("defs", …)`, and identifier
names pass through the `IdentAst` normalization above.  `to_bnf_ast`
performs exactly this translation on a version-9 parse tree. -/
def to_bnf_ast : Ast → Ast
  | .integer i => .integer i
  | .string s => .string s
  | .binary op l r =>
    .binary (if op == "=" then "rule" else op) (to_bnf_ast l) (to_bnf_ast r)
  | .ident n => .ident (ident_normalize n)
  | .unary o g => .unary o (match g with | some x => some (to_bnf_ast x) | none => none)
  | .seq tag l => .seq (if tag == "defs" then "expr" else tag) (to_bnf_ast_list l)
  | .special s => .special s
  | .empty => .empty

def to_bnf_ast_list : List Ast → List Ast
  | [] => []
  | a :: l => to_bnf_ast a :: to_bnf_ast_list l

end

/-- Modelled from the spec: scan-and-parse into a `bnf_ast.hpp`-dialect tree
(the empty node when parsing fails). -/
def parseB (s : String) : Ast := to_bnf_ast ((parse9 s).getD .empty)

end BNF

namespace EBNF

/-- `TokenStream`'s cursor-relevant state: the token vector and the current
index. -/
structure TokStream where
  m_tokens : List Token
  m_index : Nat
deriving DecidableEq, Repr

def ts_size (t : TokStream) : Nat := t.m_tokens.length

/-- `TokenStream::index(size_t pos)`: accepts any `pos <= size()` (including
`pos == size()`), setting the cursor and returning true; otherwise returns
false and leaves the cursor unchanged. -/
def ts_index_set (t : TokStream) (pos : Nat) : Bool × TokStream :=
  if pos ≤ ts_size t then (true, { t with m_index := pos }) else (false, t)

/-- `TokenStream::token()`: asserts `m_index <= size()` and then indexes the
vector, so a cursor equal to the size passes the assertion yet reads out of
bounds; the out-of-bounds read is modelled as `none`. -/
def ts_token (t : TokStream) : Option Token := t.m_tokens.get? t.m_index

end EBNF

namespace BNF

open EBNF

/-- one iteration of the "terms" loop of `SeqAst::sorted_clone`: the
(possibly empty) slice of the assembled vector that one child contributes. -/
def sc_terms_elem : Ast → List Ast
  | .unary "group" (some (.seq "expr" [.seq "terms" ts])) =>
    if ast_empty (.seq "terms" ts) then [] else sc_terms_list ts
  | a =>
    if ast_empty a then [] else [sorted_clone a]

/-- The canonical child list of a "terms" sequence as the claim words it:
only the empty elements dropped, every remaining child canonicalized in
place, nothing spliced.  Stated from the claim's words, for comparison with
`sc_terms_list`, which additionally inlines single-alternative groups. -/
def terms_drop_empties_only (l : List Ast) : List Ast :=
  (l.filter (fun a => !ast_empty a)).map sorted_clone

end BNF


open EBNF

/-- C1: the claimed trichotomy of the structural comparison fails on the
code: for the parsed rule-sets of "a = a;" and "a = b;" none of
`ast_equal(p,q)`, `ast_less_than(p,q)`, `ast_less_than(q,p)` holds under the
`EBNF.hpp` algebra, because its sequence ordering returns false whenever the
two child vectors have equal length; the repository's own compare-test table
expects less-than here. -/
theorem c1_trichotomy_fails_on_parsed_rule_sets :
    (EBNF.parse9 "a = a;").isSome = true ∧ (EBNF.parse9 "a = b;").isSome = true ∧
    EBNF9.ast_equal9 EBNF9.fuel9 ((EBNF.parse9 "a = a;").getD .empty)
      ((EBNF.parse9 "a = b;").getD .empty) = false ∧
    EBNF9.ast_less_than9 EBNF9.fuel9 ((EBNF.parse9 "a = a;").getD .empty)
      ((EBNF.parse9 "a = b;").getD .empty) = false ∧
    EBNF9.ast_less_than9 EBNF9.fuel9 ((EBNF.parse9 "a = b;").getD .empty)
      ((EBNF.parse9 "a = a;").getD .empty) = false := by
  decide

/-- C2: canonicalization is not idempotent: on the parsed AST of
"a = (|), (x|y);" the second `sorted_clone` inlines a single-alternative
group that the first pass left behind (the first pass only shrank the
group's alternative list to one), so the canonical form of the canonical
form is not `ast_equal` to the canonical form. -/
theorem c2_canonicalization_not_idempotent :
    (EBNF.parse9 "a = (|), (x|y);").isSome = true ∧
    BNF.ast_equal
      (BNF.sorted_clone (BNF.sorted_clone (BNF.parseB "a = (|), (x|y);")))
      (BNF.sorted_clone (BNF.parseB "a = (|), (x|y);")) = false := by
  decide

/-- C3: the concrete instance of the claim holds — the parses of
"a = x | y;" and "a = y | x;" are `ast_equal` — but reordering the
alternatives of a rule does not preserve `ast_equal` in general: swapping
the two alternatives of "a = [p] - x | {q} - w;" changes the comparison
result, because the `ATYPE_UNARY` case of `ast_equal` reads both operands
from `ast1`, which makes the comparator underlying canonicalization order
each of these two alternatives strictly before the other. -/
theorem c3_alternation_reordering_not_preserved :
    BNF.ast_equal (BNF.parseB "a = x | y;") (BNF.parseB "a = y | x;") = true ∧
    (EBNF.parse9 "a = [p] - x | {q} - w;").isSome = true ∧
    BNF.ast_equal (BNF.parseB "a = [p] - x | {q} - w;")
      (BNF.parseB "a = {q} - w | [p] - x;") = false := by
  decide

/-- C7: the `ATYPE_UNARY` case of `ast_equal` in `bnf_ast.hpp` reads its
second operand from `ast1`, so two unary nodes with different operator tags
and different present arguments compare equal, against the claim; the
version-9 `ast_equal` in `EBNF.hpp` compares the same pair correctly. -/
theorem c7_unary_equality_ignores_second_operand :
    BNF.ast_equal (Ast.unary "optional" (some (Ast.ident "p")))
      (Ast.unary "repeated" (some (Ast.ident "q"))) = true ∧
    ("optional" : String) ≠ "repeated" ∧
    EBNF9.ast_equal9 EBNF9.fuel9 (Ast.unary "optional" (some (Ast.ident "p")))
      (Ast.unary "repeated" (some (Ast.ident "q"))) = false := by
  decide

/-- C8: under ISO-EBNF mode a zero-length terminal string between matching
quotes is a scan error — tokenization stops right after the two tokens
before it and reports failure — and an unterminated terminal string with at
least one content character is likewise a scan error.  But the claim fails
when end of input comes immediately after the opening quote: the ISO
empty-string probe's read at end of input does not advance while its
rewind still steps back, onto the opening quote, which the character loop
then takes as the closing quote — so scanning the quote-terminated input
SUCCEEDS and even emits the zero-length terminal-string token that the
probe exists to reject. -/
theorem c8_lone_trailing_quote_scans_as_empty_string :
    EBNF.scan_ok "list = \"\";" = false ∧
    (EBNF.scan_tokens "list = \"\";").1 =
      [⟨"list", TokenType.TOK_IDENT⟩, ⟨"=", TokenType.TOK_SYMBOL⟩] ∧
    EBNF.scan_ok "list = \"not terminated" = false ∧
    EBNF.scan_ok "list = \"" = true ∧
    (EBNF.scan_tokens "list = \"").1 =
      [⟨"list", TokenType.TOK_IDENT⟩, ⟨"=", TokenType.TOK_SYMBOL⟩,
       ⟨"", TokenType.TOK_STRING⟩, ⟨"", TokenType.TOK_EOF⟩] := by
  decide

namespace BNF

open EBNF

theorem sc_terms_elem_empty (a : Ast) (h : ast_empty a = true) : sc_terms_elem a = [] := by
  rw [sc_terms_elem.eq_def]
  split
  · rename_i ts
    exact absurd h (by simp [ast_empty])
  · simp [h]

theorem sc_terms_cons (a : Ast) (l : List Ast) :
    sc_terms_list (a :: l) = sc_terms_elem a ++ sc_terms_list l := by
  rw [sc_terms_list.eq_def]
  split
  · rename_i heq; exact absurd heq (by simp)
  · rename_i ts l' heq
    injection heq with h1 h2
    subst h1; subst h2
    rw [sc_terms_elem]
    split <;> simp_all
  · rename_i x l' hno hcons
    injection hcons with h1 h2
    subst h1; subst h2
    by_cases h : ast_empty a = true
    · rw [if_pos h, sc_terms_elem_empty a h, List.nil_append]
    · rw [if_neg h, sc_terms_elem.eq_def]
      split
      · rename_i ts
        exact absurd rfl (hno ts)
      · rw [if_neg h, List.singleton_append]

theorem sc_terms_append (l1 l2 : List Ast) :
    sc_terms_list (l1 ++ l2) = sc_terms_list l1 ++ sc_terms_list l2 := by
  induction l1 with
  | nil => rfl
  | cons a l1 ih =>
    rw [List.cons_append, sc_terms_cons, sc_terms_cons, ih, List.append_assoc]

end BNF

open EBNF

theorem sorted_clone_terms_def (l : List EBNF.Ast) :
    BNF.sorted_clone (Ast.seq "terms" l) = Ast.seq "terms" (BNF.sc_terms_list l) := rfl

theorem c4_terms_canonicalization_not_drop_only :
    BNF.sorted_clone (Ast.seq "terms"
      [Ast.unary "group" (some (Ast.seq "expr" [Ast.seq "terms" [Ast.ident "x", Ast.ident "y"]])),
       Ast.ident "z"]) ≠
    Ast.seq "terms" (BNF.terms_drop_empties_only
      [Ast.unary "group" (some (Ast.seq "expr" [Ast.seq "terms" [Ast.ident "x", Ast.ident "y"]])),
       Ast.ident "z"]) := by
  intro h
  exact absurd (congrArg (fun a => a.children.length) h) (by decide)

theorem c4_concatenation_order_sensitive :
    BNF.ast_equal (BNF.parseB "a = x, y;") (BNF.parseB "a = y, x;") = false ∧
    (∀ l1 l2 : List Ast,
      BNF.sorted_clone (Ast.seq "terms" (l1 ++ l2)) =
        Ast.seq "terms" ((BNF.sorted_clone (Ast.seq "terms" l1)).children ++
          (BNF.sorted_clone (Ast.seq "terms" l2)).children)) ∧
    (∀ (a : Ast) (l : List Ast), BNF.ast_empty a = true →
      BNF.sorted_clone (Ast.seq "terms" (a :: l)) = BNF.sorted_clone (Ast.seq "terms" l)) := by
  refine ⟨by decide, fun l1 l2 => ?_, fun a l h => ?_⟩
  · rw [sorted_clone_terms_def, sorted_clone_terms_def, sorted_clone_terms_def]
    exact congrArg _ (BNF.sc_terms_append l1 l2)
  · rw [sorted_clone_terms_def, sorted_clone_terms_def, BNF.sc_terms_cons,
      BNF.sc_terms_elem_empty a h, List.nil_append]

theorem c4_concatenation_order_sensitive_witness :
    BNF.ast_empty Ast.empty = true ∧
    BNF.sorted_clone (Ast.seq "terms" [Ast.empty]) = BNF.sorted_clone (Ast.seq "terms" []) :=
  ⟨by decide, c4_concatenation_order_sensitive.2.2 Ast.empty [] (by decide)⟩

namespace BNF

open EBNF

theorem append_alts_name (r : Ast) (same : List Ast) :
    ast_get_rule_name (append_alts r same) = ast_get_rule_name r := by
  cases r with
  | binary op l rr =>
    cases rr <;> cases l <;> rfl
  | _ => rfl

theorem join_aux_names_sub (fuel : Nat) :
    ∀ (l : List Ast) (n : String),
      n ∈ (join_rules_aux fuel l).1.map ast_get_rule_name →
      n ∈ l.map ast_get_rule_name := by
  induction fuel with
  | zero => intro l n h; simp [join_rules_aux] at h
  | succ fuel ih =>
    intro l n h
    cases l with
    | nil => simp [join_rules_aux] at h
    | cons r rest =>
      rw [join_rules_aux] at h
      simp only [List.map_cons, List.mem_cons] at h ⊢
      rcases h with h | h
      · left; rw [h, append_alts_name]
      · right
        have h2 := ih _ n h
        rcases List.mem_map.mp h2 with ⟨x, hx, hxn⟩
        exact List.mem_map.mpr ⟨x, (List.mem_filter.mp hx).1, hxn⟩

theorem join_aux_names_nodup (fuel : Nat) :
    ∀ l : List Ast, ((join_rules_aux fuel l).1.map ast_get_rule_name).Nodup := by
  induction fuel with
  | zero => intro l; simp [join_rules_aux]
  | succ fuel ih =>
    intro l
    cases l with
    | nil => simp [join_rules_aux]
    | cons r rest =>
      rw [join_rules_aux]
      simp only [List.map_cons, List.nodup_cons]
      refine ⟨fun hmem => ?_, ih _⟩
      rw [append_alts_name] at hmem
      have h2 := join_aux_names_sub fuel _ _ hmem
      rcases List.mem_map.mp h2 with ⟨x, hx, hxn⟩
      have := (List.mem_filter.mp hx).2
      simp only [bne_iff_ne, ne_eq] at this
      exact this hxn

end BNF

namespace BNF

open EBNF

theorem join_aux_flag_iff (fuel : Nat) :
    ∀ l : List Ast, l.length ≤ fuel →
      ((join_rules_aux fuel l).2 = true ↔ ¬ (l.map ast_get_rule_name).Nodup) := by
  induction fuel with
  | zero =>
    intro l h
    have : l = [] := List.length_eq_zero.mp (Nat.le_zero.mp h)
    subst this
    simp [join_rules_aux]
  | succ fuel ih =>
    intro l h
    cases l with
    | nil => simp [join_rules_aux]
    | cons r rest =>
      rw [join_rules_aux]
      simp only [List.map_cons, List.nodup_cons, not_and]
      by_cases hs : rest.filter (fun x => ast_get_rule_name x == ast_get_rule_name r) = []
      · have hall := List.filter_eq_nil_iff.mp hs
        have hne : ∀ x ∈ rest, ast_get_rule_name x ≠ ast_get_rule_name r := by
          intro x hx
          have := hall x hx
          simpa using this
        have hdiff :
            rest.filter (fun x => ast_get_rule_name x != ast_get_rule_name r) = rest := by
          refine List.filter_eq_self.mpr (fun a ha => ?_)
          simpa using hne a ha
        have hnotin : ast_get_rule_name r ∉ rest.map ast_get_rule_name := by
          intro hmem
          rcases List.mem_map.mp hmem with ⟨x, hx, hxn⟩
          exact hne x hx hxn
        simp only [hs, hdiff, List.isEmpty_nil, Bool.not_true, Bool.or_false]
        rw [ih rest (Nat.le_of_succ_le_succ h)]
        constructor
        · intro hnd _
          exact hnd
        · intro h2
          exact h2 hnotin
      · cases hfe : rest.filter (fun x => ast_get_rule_name x == ast_get_rule_name r) with
        | nil => exact absurd hfe hs
        | cons y ys =>
          have hy : y ∈ rest ∧ (ast_get_rule_name y == ast_get_rule_name r) = true :=
            List.mem_filter.mp (hfe ▸ List.mem_cons_self y ys)
          have hyname : ast_get_rule_name y = ast_get_rule_name r := by simpa using hy.2
          have hmem : ast_get_rule_name r ∈ rest.map ast_get_rule_name :=
            List.mem_map.mpr ⟨y, hy.1, hyname⟩
          simp only [hfe, List.isEmpty_cons, Bool.not_false, Bool.or_true, true_iff]
          intro hni
          exact absurd hmem hni


end BNF

open EBNF

theorem c5_join_joinable_rules_correct :
    (∀ l : List Ast,
      (((BNF.ast_join_joinable_rules (Ast.seq "rules" l)).1.children).map
        BNF.ast_get_rule_name).Nodup) ∧
    (∀ l : List Ast,
      ((BNF.ast_join_joinable_rules (Ast.seq "rules" l)).2 = true ↔
        ¬ (l.map BNF.ast_get_rule_name).Nodup)) ∧
    BNF.ast_equal (BNF.ast_join_joinable_rules (BNF.parseB "a = x; a = y;")).1
      (BNF.parseB "a = x | y;") = true ∧
    (BNF.ast_join_joinable_rules (BNF.parseB "a = x; a = y;")).2 = true := by
  refine ⟨fun l => ?_, fun l => ?_, by decide, by decide⟩
  · exact BNF.join_aux_names_nodup l.length l
  · exact BNF.join_aux_flag_iff l.length l (Nat.le_refl _)

theorem c6_parse_success_iff_ast_built_and_eof :
    (∀ toks : List EBNF.Token,
      (EBNF.parse_tokens toks).isSome = true ↔
        (toks.length ≠ 0 ∧ (EBNF.syntax_result toks).1.isSome = true ∧
         EBNF.ptype (EBNF.fixup toks) (EBNF.syntax_result toks).2 =
           EBNF.TokenType.TOK_EOF)) ∧
    EBNF.scan_ok "test = \"test\";;" = true ∧
    (EBNF.parse9 "test = \"test\";;").isNone = true := by
  refine ⟨fun toks => ?_, by decide, by decide⟩
  unfold EBNF.parse_tokens
  by_cases h0 : toks.length = 0
  · simp [h0]
  · rcases hv : EBNF.syntax_result toks with ⟨r, st⟩
    cases r with
    | none => simp [h0, hv]
    | some a =>
      by_cases he : EBNF.ptype (EBNF.fixup toks) st = EBNF.TokenType.TOK_EOF
      · simp [h0, hv, he]
      · simp [h0, hv, he]

theorem c9_index_accepts_position_one_past_end :
    ∀ (t : EBNF.TokStream) (pos : Nat),
      (pos ≤ EBNF.ts_size t →
        EBNF.ts_index_set t pos = (true, { t with m_index := pos })) ∧
      (EBNF.ts_size t < pos → EBNF.ts_index_set t pos = (false, t)) ∧
      EBNF.ts_token { t with m_index := EBNF.ts_size t } = none := by
  intro t pos
  refine ⟨fun h => ?_, fun h => ?_, ?_⟩
  · simp [EBNF.ts_index_set, h]
  · simp [EBNF.ts_index_set, Nat.not_le.mpr h]
  · exact List.get?_eq_none.mpr (Nat.le_refl _)

theorem c9_index_accepts_position_one_past_end_witness :
    (1 ≤ EBNF.ts_size ⟨[⟨";", EBNF.TokenType.TOK_SYMBOL⟩], 0⟩ ∧
      EBNF.ts_index_set ⟨[⟨";", EBNF.TokenType.TOK_SYMBOL⟩], 0⟩ 1 =
        (true, ⟨[⟨";", EBNF.TokenType.TOK_SYMBOL⟩], 1⟩)) ∧
    (EBNF.ts_size ⟨[⟨";", EBNF.TokenType.TOK_SYMBOL⟩], 0⟩ < 2 ∧
      EBNF.ts_index_set ⟨[⟨";", EBNF.TokenType.TOK_SYMBOL⟩], 0⟩ 2 =
        (false, ⟨[⟨";", EBNF.TokenType.TOK_SYMBOL⟩], 0⟩)) :=
  ⟨⟨by decide,
    (c9_index_accepts_position_one_past_end ⟨[⟨";", EBNF.TokenType.TOK_SYMBOL⟩], 0⟩ 1).1
      (by decide)⟩,
   ⟨by decide,
    (c9_index_accepts_position_one_past_end ⟨[⟨";", EBNF.TokenType.TOK_SYMBOL⟩], 0⟩ 2).2.1
      (by decide)⟩⟩

theorem c10_whitespace_only_input_scans_to_eof_and_fails_parse :
    ∀ s : String, (∀ c ∈ s.data, EBNF.is_space c = true) →
      EBNF.scan_tokens s = ([⟨"", EBNF.TokenType.TOK_EOF⟩], []) ∧
      (EBNF.parse9 s).isNone = true := by
  intro s h
  have hd : s.data.dropWhile EBNF.is_space = [] := by
    rw [List.dropWhile_eq_nil_iff]
    exact h
  have hs : EBNF.scan_tokens s = ([⟨"", EBNF.TokenType.TOK_EOF⟩], []) := by
    unfold EBNF.scan_tokens
    rw [EBNF.scan_tokens_aux]
    simp [hd]
  refine ⟨hs, ?_⟩
  unfold EBNF.parse9
  rw [hs]
  decide

theorem c10_whitespace_only_witness :
    (∀ c ∈ (" \t\n" : String).data, EBNF.is_space c = true) ∧
    (EBNF.scan_tokens " \t\n" = ([⟨"", EBNF.TokenType.TOK_EOF⟩], []) ∧
      (EBNF.parse9 " \t\n").isNone = true) :=
  ⟨by decide, c10_whitespace_only_input_scans_to_eof_and_fails_parse " \t\n" (by decide)⟩
